import Mathlib

/-!
# Verification of the Miski-derived ECS core (ECSForCocosCreator)

A shallow embedding of the core data structures and operations of the ECS
runtime: the query candidacy predicate (`src/query/query.ts`), the storage
proxy (`component/storage-proxy.ts`), archetype membership and delta tracking
(`Archetype`, `ArchetypeManager`), the component manager
(`component-manager.ts`), the entity id pool (`EntityManager`), the query
result cache (`query-cache.ts` / `query-manager.ts`) and the world-level
mutation paths (`world/World.ts`).

Mutable JS state is modelled by explicit state passing; bitsets backed by
32-bit words are modelled either word-wise (`BooleanArray`, for the mask
arithmetic of `isQueryMatch`) or as boolean-valued functions (for per-entity
membership bitsets, where only `get`/`set`/`clear` are used); code that throws
is modelled with `Except`.
-/

set_option maxHeartbeats 1000000

namespace Miski

/-! ## Pointwise updates (model of in-place mutation of bitset / array cells) -/

def upd1 {β : Type} (f : Nat → β) (a : Nat) (v : β) : Nat → β :=
  fun x => if x = a then v else f x

def upd2 {β : Type} (f : Nat → Nat → β) (a b : Nat) (v : β) : Nat → Nat → β :=
  fun x y => if x = a ∧ y = b then v else f x y

def upd3 {β : Type} (f : Nat → Nat → Nat → β) (a b c : Nat) (v : β) : Nat → Nat → Nat → β :=
  fun x y z => if x = a ∧ y = b ∧ z = c then v else f x y z

def updM {β : Type} (f : List Bool → β) (m : List Bool) (v : β) : List Bool → β :=
  fun x => if x = m then v else f x

theorem upd1_self {β : Type} (f : Nat → β) (a : Nat) (v : β) : upd1 f a v a = v := by
  simp [upd1]

theorem upd1_ne {β : Type} (f : Nat → β) (a x : Nat) (v : β) (h : x ≠ a) :
    upd1 f a v x = f x := by
  simp [upd1, h]

/-! ## Error kinds (`errors.ts`) -/

inductive MiskiErr where
  | notRegistered
  | entityNotFound
deriving DecidableEq

/-! ## Word-packed bitset (`BooleanArray`) and the query candidacy predicate

`BooleanArray` is the word-packed bitset the query engine does its mask
arithmetic on.  Its implementation lives outside `src/`; per the spec (§4.1)
it is a fixed-size bit array packed into 32-bit words exposing its backing
words (`buffer`) and an exact popcount (`getTruthyCount`).  We model it by its
list of 32-bit words. -/

structure BooleanArray where
  buffer : List Nat
deriving DecidableEq

/-- Popcount of one 32-bit backing word. -/
def popcount (w : Nat) : Nat :=
  ((List.range 32).filter (fun i => w.testBit i)).length

/-- Exact number of set bits of the whole bitset (spec §4.1 `popcount()`). -/
def getTruthyCount (b : BooleanArray) : Nat :=
  (b.buffer.map popcount).sum

/-- A compiled query instance's three masks (`QueryInstance` in `types.ts`,
built by `createQueryInstance` in `query-manager.ts`). -/
structure QueryInstance where
  and : BooleanArray
  or : BooleanArray
  not : BooleanArray

/-- `isQueryMatch` from `src/query/query.ts` (lines 87-120), word for word:
empty targets never match; every AND word must be covered by the target;
no NOT word may intersect the target; if the OR mask has any set bit, some
OR word must intersect the target.  Out-of-range word reads yield 0
(`?? 0` in the source). -/
def isQueryMatch (target : BooleanArray) (query : QueryInstance) : Bool :=
  if getTruthyCount target = 0 then false
  else
    ((List.range target.buffer.length).all fun i =>
      decide (target.buffer.getD i 0 &&& query.and.buffer.getD i 0 = query.and.buffer.getD i 0)) &&
    ((List.range target.buffer.length).all fun i =>
      decide (target.buffer.getD i 0 &&& query.not.buffer.getD i 0 = 0)) &&
    (if 0 < getTruthyCount query.or then
      (List.range target.buffer.length).any fun i =>
        decide (target.buffer.getD i 0 &&& query.or.buffer.getD i 0 ≠ 0)
    else true)

/-- The candidacy predicate exactly as the specification words it (claim C1):
`(t & q.and) == q.and` and `(t & q.not) == 0` and
(`q.or == 0` or `(t & q.or) ≠ 0`), the bitwise conditions taken word-wise
over all mask words.  This is the spec-following definition, to be compared
against `isQueryMatch` (the source definition). -/
def isQueryMatchSpec (target : BooleanArray) (query : QueryInstance) : Prop :=
  (∀ i ∈ List.range target.buffer.length,
    target.buffer.getD i 0 &&& query.and.buffer.getD i 0 = query.and.buffer.getD i 0) ∧
  (∀ i ∈ List.range target.buffer.length,
    target.buffer.getD i 0 &&& query.not.buffer.getD i 0 = 0) ∧
  ((∀ i ∈ List.range target.buffer.length, query.or.buffer.getD i 0 = 0) ∨
   (∃ i ∈ List.range target.buffer.length,
     target.buffer.getD i 0 &&& query.or.buffer.getD i 0 ≠ 0))

instance (t : BooleanArray) (q : QueryInstance) : Decidable (isQueryMatchSpec t q) := by
  unfold isQueryMatchSpec
  infer_instance

theorem popcount_eq_zero {w : Nat} (hw : w < 2 ^ 32) : popcount w = 0 ↔ w = 0 := by
  constructor
  · intro h
    have hfilter : ∀ i ∈ List.range 32, ¬ w.testBit i := by
      intro i hi hbit
      have : (i : Nat) ∈ (List.range 32).filter (fun j => w.testBit j) := by
        simp only [List.mem_filter]
        exact ⟨hi, by simpa using hbit⟩
      have hne : ((List.range 32).filter (fun j => w.testBit j)) ≠ [] := by
        intro hempty
        rw [hempty] at this
        exact absurd this (List.not_mem_nil i)
      exact hne (List.eq_nil_of_length_eq_zero h)
    apply Nat.eq_of_testBit_eq
    intro i
    rcases lt_or_ge i 32 with hi | hi
    · simp only [Nat.zero_testBit]
      have := hfilter i (List.mem_range.mpr hi)
      simpa using this
    · simp only [Nat.zero_testBit]
      have hlt : w < 2 ^ i := lt_of_lt_of_le hw (Nat.pow_le_pow_right (by norm_num) hi)
      simpa using Nat.testBit_lt_two_pow hlt
  · intro h
    subst h
    decide

theorem getTruthyCount_eq_zero (b : BooleanArray) (hw : ∀ w ∈ b.buffer, w < 2 ^ 32) :
    getTruthyCount b = 0 ↔ ∀ w ∈ b.buffer, w = 0 := by
  unfold getTruthyCount
  rw [List.sum_eq_zero_iff]
  constructor
  · intro h w hwb
    exact (popcount_eq_zero (hw w hwb)).mp (h _ (List.mem_map_of_mem _ hwb))
  · intro h x hx
    obtain ⟨w, hwb, rfl⟩ := List.mem_map.mp hx
    exact (popcount_eq_zero (hw w hwb)).mpr (h w hwb)

/-- C1 (counterexample): the claim as stated — `isQueryMatch(t, q) = true` iff
the three word-wise mask conditions hold — fails on the code: for the empty
target mask `t = [0]` and the query with masks `and = [0]`, `or = [0]`,
`not = [1]`, the three conditions all hold, yet `isQueryMatch` returns
`false` (the source rejects empty targets up front:
`if (target.getTruthyCount() === 0) return false`). -/
theorem isQueryMatch_claim_counterexample :
    ¬ (isQueryMatch ⟨[0]⟩ ⟨⟨[0]⟩, ⟨[0]⟩, ⟨[1]⟩⟩ = true ↔
       isQueryMatchSpec ⟨[0]⟩ ⟨⟨[0]⟩, ⟨[0]⟩, ⟨[1]⟩⟩) := by
  decide

/-- C1 (amended): for every target mask `t` and query instance `q` whose OR
mask has the same word count as `t` (as in the program, where all masks are
sized to the world's component count) with 32-bit words, `isQueryMatch(t, q)`
returns `true` iff the target is non-empty (its popcount is nonzero) AND
`(t & q.and) == q.and`, `(t & q.not) == 0` and
(`q.or == 0` or `(t & q.or) ≠ 0`), word-wise over all mask words. -/
theorem isQueryMatch_characterization (t : BooleanArray) (q : QueryInstance)
    (hor : q.or.buffer.length = t.buffer.length)
    (hw : ∀ w ∈ q.or.buffer, w < 2 ^ 32) :
    isQueryMatch t q = true ↔ (getTruthyCount t ≠ 0 ∧ isQueryMatchSpec t q) := by
  unfold isQueryMatch isQueryMatchSpec
  by_cases h0 : getTruthyCount t = 0
  · simp [h0]
  · rw [if_neg h0]
    have hor0 : getTruthyCount q.or = 0 ↔
        ∀ i ∈ List.range t.buffer.length, q.or.buffer.getD i 0 = 0 := by
      rw [getTruthyCount_eq_zero q.or hw]
      constructor
      · intro h i hi
        rcases lt_or_ge i q.or.buffer.length with hlt | hge
        · rw [List.getD_eq_getElem _ _ hlt]
          exact h _ (List.getElem_mem hlt)
        · have hnone : q.or.buffer[i]? = none := List.getElem?_eq_none hge
          simp [List.getD, hnone]
      · intro h w hwb
        obtain ⟨i, hlt, rfl⟩ := List.mem_iff_getElem.mp hwb
        have hi : i ∈ List.range t.buffer.length := List.mem_range.mpr (hor ▸ hlt)
        have := h i hi
        rwa [List.getD_eq_getElem _ _ hlt] at this
    rw [Bool.and_eq_true, Bool.and_eq_true]
    simp only [List.all_eq_true, decide_eq_true_eq]
    by_cases ho : 0 < getTruthyCount q.or
    · rw [if_pos ho]
      simp only [List.any_eq_true, decide_eq_true_eq]
      have hnz : ¬ ∀ i ∈ List.range t.buffer.length, q.or.buffer.getD i 0 = 0 := by
        intro hall
        exact absurd (hor0.mpr hall) (Nat.pos_iff_ne_zero.mp ho)
      constructor
      · rintro ⟨⟨ha, hn⟩, hany⟩
        exact ⟨h0, ha, hn, Or.inr hany⟩
      · rintro ⟨-, ha, hn, hcase⟩
        refine ⟨⟨ha, hn⟩, ?_⟩
        rcases hcase with hz | he
        · exact absurd hz hnz
        · exact he
    · rw [if_neg ho]
      have hz : ∀ i ∈ List.range t.buffer.length, q.or.buffer.getD i 0 = 0 :=
        hor0.mp (Nat.eq_zero_of_not_pos ho)
      constructor
      · rintro ⟨⟨ha, hn⟩, -⟩
        exact ⟨h0, ha, hn, Or.inl hz⟩
      · rintro ⟨-, ha, hn, -⟩
        exact ⟨⟨ha, hn⟩, rfl⟩

/-- C1 (witness): a concrete instance of the amended characterization: for
`t = [3]`, `and = [1]`, `or = [2]`, `not = [4]`, the hypotheses hold and the
characterization evaluates on both sides. -/
theorem isQueryMatch_characterization_witness :
    ((⟨[2]⟩ : BooleanArray).buffer.length = (⟨[3]⟩ : BooleanArray).buffer.length ∧
      ∀ w ∈ (⟨[2]⟩ : BooleanArray).buffer, w < 2 ^ 32) ∧
    (isQueryMatch ⟨[3]⟩ ⟨⟨[1]⟩, ⟨[2]⟩, ⟨[4]⟩⟩ = true ↔
      (getTruthyCount ⟨[3]⟩ ≠ 0 ∧ isQueryMatchSpec ⟨[3]⟩ ⟨⟨[1]⟩, ⟨[2]⟩, ⟨[4]⟩⟩)) :=
  ⟨⟨by decide, by decide⟩,
   isQueryMatch_characterization ⟨[3]⟩ ⟨⟨[1]⟩, ⟨[2]⟩, ⟨[4]⟩⟩ (by decide) (by decide)⟩

/-! ## Storage proxy (`component/storage-proxy.ts`)

A `StorageProxy` wraps one component's storage partition and its `changed`
bitset, with a mutable entity cursor.  The source installs one getter/setter
per schema field; fields are identified here by `Nat` keys, and the partition
field views (external typed arrays of `@phughesmcr/partitionedbuffer`) are
modelled as exact integer-valued cells indexed by field and entity. -/

structure StorageProxy where
  entity : Nat
  capacity : Nat
  partitions : Nat → Nat → Int
  changed : Nat → Bool

/-- Proxy construction: the entity cursor starts at `0`
(`#entity: Entity = 0` in the source). -/
def mkStorageProxy (capacity : Nat) (partitions : Nat → Nat → Int)
    (changed : Nat → Bool) : StorageProxy :=
  { entity := 0, capacity := capacity, partitions := partitions, changed := changed }

/-- The `entity` setter: `value < 0 || value >= capacity` raises
`EntityNotFound`, otherwise the cursor is updated. -/
def setEntity (p : StorageProxy) (value : Int) : Except MiskiErr StorageProxy :=
  if value < 0 ∨ (p.capacity : Int) ≤ value then Except.error MiskiErr.entityNotFound
  else Except.ok { p with entity := value.toNat }

/-- A field getter: yields `partition.F[entity]` at the current cursor. -/
def readField (p : StorageProxy) (f : Nat) : Int :=
  p.partitions f p.entity

/-- A field setter: `if (store[entity] !== value) { store[entity] = value;
changed.set(entity, true) }`. -/
def writeField (p : StorageProxy) (f : Nat) (value : Int) : StorageProxy :=
  if p.partitions f p.entity ≠ value then
    { p with partitions := upd2 p.partitions f p.entity value,
             changed := upd1 p.changed p.entity true }
  else p

/-- C4: for every schema field `f`, every entity `e` in range and every value
`v`: after pointing the proxy's cursor at `e`, writing `v` through the proxy
leaves the stored cell equal to `v`, a subsequent read yields that stored
value `v`, the changed bit at `e` ends set iff it was already set or the
previously stored value differed from `v` (so a write of the already-stored
value does not set it), and a write of the already-stored value changes no
state at all. -/
theorem storageProxy_field_write (p : StorageProxy) (e f : Nat) (v : Int)
    (he : e < p.capacity) :
    ∃ p1 : StorageProxy, setEntity p (e : Int) = Except.ok p1 ∧ p1.entity = e ∧
      ((writeField p1 f v).partitions f e = v ∧
       readField (writeField p1 f v) f = v ∧
       ((writeField p1 f v).changed e = true ↔
         (p1.changed e = true ∨ p1.partitions f e ≠ v)) ∧
       (p1.partitions f e = v → writeField p1 f v = p1)) := by
  have hok : setEntity p (e : Int) = Except.ok { p with entity := e } := by
    unfold setEntity
    rw [if_neg]
    · simp
    · push_neg
      constructor
      · positivity
      · exact_mod_cast he
  refine ⟨{ p with entity := e }, hok, rfl, ?_⟩
  by_cases hv : p.partitions f e = v
  · have : writeField { p with entity := e } f v = { p with entity := e } := by
      unfold writeField
      simp [hv]
    rw [this]
    exact ⟨hv, hv, by simp [hv], fun _ => rfl⟩
  · have : writeField { p with entity := e } f v =
        { p with entity := e, partitions := upd2 p.partitions f e v,
                 changed := upd1 p.changed e true } := by
      unfold writeField
      simp [hv]
    rw [this]
    refine ⟨by simp [upd2], by simp [readField, upd2], ?_, fun h => absurd h hv⟩
    simp [upd1, hv]

/-- C4 (witness): concrete instance at capacity 2, cursor 1, field 0,
value 5 over zero-initialized storage. -/
theorem storageProxy_field_write_witness :
    (1 < (mkStorageProxy 2 (fun _ _ => 0) (fun _ => false)).capacity) ∧
    (∃ p1 : StorageProxy,
      setEntity (mkStorageProxy 2 (fun _ _ => 0) (fun _ => false)) (1 : Int) =
        Except.ok p1 ∧ p1.entity = 1 ∧
      ((writeField p1 0 5).partitions 0 1 = 5 ∧
       readField (writeField p1 0 5) 0 = 5 ∧
       ((writeField p1 0 5).changed 1 = true ↔
         (p1.changed 1 = true ∨ p1.partitions 0 1 ≠ 5)) ∧
       (p1.partitions 0 1 = 5 → writeField p1 0 5 = p1))) :=
  ⟨by decide,
   storageProxy_field_write (mkStorageProxy 2 (fun _ _ => 0) (fun _ => false)) 1 0 5
     (by decide)⟩

/-- C10: a newly constructed `StorageProxy` has its entity cursor equal to 0,
so a field read before assigning the cursor reads entity 0's slot, a write
before assigning the cursor writes entity 0's slot and marks entity 0 changed
exactly when the value differs, and assigning the cursor a value `w` with
`w < 0` or `w >= capacity` raises `EntityNotFound` (the exception leaves the
proxy — hence its cursor — unmodified). -/
theorem storageProxy_initial_cursor (capacity : Nat) (parts : Nat → Nat → Int)
    (chg : Nat → Bool) (f : Nat) (v w : Int)
    (hw : w < 0 ∨ (capacity : Int) ≤ w) :
    (mkStorageProxy capacity parts chg).entity = 0 ∧
    readField (mkStorageProxy capacity parts chg) f = parts f 0 ∧
    (writeField (mkStorageProxy capacity parts chg) f v).partitions f 0 = v ∧
    ((writeField (mkStorageProxy capacity parts chg) f v).changed 0 =
      (chg 0 || decide (parts f 0 ≠ v))) ∧
    setEntity (mkStorageProxy capacity parts chg) w =
      Except.error MiskiErr.entityNotFound := by
  refine ⟨rfl, rfl, ?_, ?_, ?_⟩
  · unfold writeField mkStorageProxy
    by_cases hv : parts f 0 = v
    · simp [hv]
    · simp [hv, upd2]
  · unfold writeField mkStorageProxy
    by_cases hv : parts f 0 = v
    · simp [hv]
    · simp [hv, upd1]
  · unfold setEntity mkStorageProxy
    rw [if_pos hw]

/-- C10 (witness): capacity 1, zero storage, cursor assignment of `-1`. -/
theorem storageProxy_initial_cursor_witness :
    ((-1 : Int) < 0 ∨ ((1 : Nat) : Int) ≤ (-1 : Int)) ∧
    ((mkStorageProxy 1 (fun _ _ => 0) (fun _ => false)).entity = 0 ∧
     readField (mkStorageProxy 1 (fun _ _ => 0) (fun _ => false)) 0 =
       (fun (_ : Nat) (_ : Nat) => (0 : Int)) 0 0 ∧
     (writeField (mkStorageProxy 1 (fun _ _ => 0) (fun _ => false)) 0 7).partitions 0 0 = 7 ∧
     ((writeField (mkStorageProxy 1 (fun _ _ => 0) (fun _ => false)) 0 7).changed 0 =
       ((fun (_ : Nat) => false) 0 || decide ((fun (_ : Nat) (_ : Nat) => (0 : Int)) 0 0 ≠ 7))) ∧
     setEntity (mkStorageProxy 1 (fun _ _ => 0) (fun _ => false)) (-1) =
       Except.error MiskiErr.entityNotFound) :=
  ⟨Or.inl (by decide),
   storageProxy_initial_cursor 1 (fun _ _ => 0) (fun _ => false) 0 7 (-1)
     (Or.inl (by decide))⟩

/-! ## Archetype (`Archetype.ts`)

Per-archetype per-entity bitsets: current members (`entities`) and the
membership deltas since the last refresh (`entered` / `exited`).  Only
`get` / `set` / `clear` are used on these bitsets, so they are modelled as
boolean-valued functions on entity ids. -/

structure ArchetypeData where
  entities : Nat → Bool
  entered : Nat → Bool
  exited : Nat → Bool

/-- `Archetype.addEntity`: `if (entities.get(entity)) return this;` then set
`entities[entity]` and `entered[entity]`. -/
def addEntity (a : ArchetypeData) (entity : Nat) : ArchetypeData :=
  if a.entities entity then a
  else { a with entities := upd1 a.entities entity true,
                entered := upd1 a.entered entity true }

/-- `Archetype.removeEntity`: `if (!entities.get(entity)) return this;` then
clear `entered[entity]`, clear `entities[entity]`, set `exited[entity]`. -/
def removeEntity (a : ArchetypeData) (entity : Nat) : ArchetypeData :=
  if a.entities entity then
    { entered := upd1 a.entered entity false,
      entities := upd1 a.entities entity false,
      exited := upd1 a.exited entity true }
  else a

/-- `Archetype.refresh`: clear the `entered` and `exited` bitsets. -/
def refreshArchetype (a : ArchetypeData) : ArchetypeData :=
  { a with entered := fun _ => false, exited := fun _ => false }

/-- C9: `addEntity` is idempotent and `removeEntity` is a no-op on
non-members: if `e` is already a member, `addEntity` changes no state (in
particular it does not set the entered bit); if `e` is not a member,
`removeEntity` changes no state (in particular it does not set the exited
bit); and `removeEntity` of a member clears the entered bit (and the
membership bit) and sets the exited bit for `e`. -/
theorem archetype_add_remove_guards (a : ArchetypeData) (e : Nat) :
    (a.entities e = true → addEntity a e = a) ∧
    (a.entities e = false → removeEntity a e = a) ∧
    (a.entities e = true →
      (removeEntity a e).entities e = false ∧
      (removeEntity a e).entered e = false ∧
      (removeEntity a e).exited e = true) := by
  refine ⟨fun h => ?_, fun h => ?_, fun h => ?_⟩
  · unfold addEntity
    simp [h]
  · unfold removeEntity
    simp [h]
  · unfold removeEntity
    simp [h, upd1]

/-- C9 (witness): concrete member and non-member archetypes at entity 0. -/
theorem archetype_add_remove_guards_witness :
    (addEntity ⟨fun _ => true, fun _ => false, fun _ => false⟩ 0 =
      ⟨fun _ => true, fun _ => false, fun _ => false⟩) ∧
    (removeEntity ⟨fun _ => false, fun _ => false, fun _ => false⟩ 0 =
      ⟨fun _ => false, fun _ => false, fun _ => false⟩) ∧
    ((removeEntity ⟨fun _ => true, fun _ => false, fun _ => false⟩ 0).entities 0 = false ∧
     (removeEntity ⟨fun _ => true, fun _ => false, fun _ => false⟩ 0).entered 0 = false ∧
     (removeEntity ⟨fun _ => true, fun _ => false, fun _ => false⟩ 0).exited 0 = true) :=
  ⟨(archetype_add_remove_guards ⟨fun _ => true, fun _ => false, fun _ => false⟩ 0).1 rfl,
   (archetype_add_remove_guards ⟨fun _ => false, fun _ => false, fun _ => false⟩ 0).2.1 rfl,
   (archetype_add_remove_guards ⟨fun _ => true, fun _ => false, fun _ => false⟩ 0).2.2 rfl⟩

/-! ## Entity manager (`EntityManager.ts`) -/

/-- Modelled from the spec: the entity id pool (`BitPool`, §1 / §6) is an
external collaborator whose implementation is not under `src/`.  Per its
contract, it acquires and releases integer ids in `[0, capacity)`, exposes
the occupied count, and `acquire` returns `-1` when the pool is full
(surfaced by `EntityManager.create` as `undefined`).  We model the pool as
the set of occupied ids, with `acquire` handing out the lowest free id. -/
structure EntityManager where
  capacity : Nat
  occupied : Nat → Bool

def occupiedCount (m : EntityManager) : Nat :=
  ((List.range m.capacity).filter (fun i => m.occupied i)).length

/-- `EntityManager.create`: `pool.acquire()`, `undefined` (here `none`) when
the pool returns `-1`, otherwise the fresh id (and the mutated pool). -/
def create (m : EntityManager) : Option (Nat × EntityManager) :=
  match (List.range m.capacity).find? (fun i => ! m.occupied i) with
  | none => none
  | some i => some (i, { m with occupied := upd1 m.occupied i true })

/-- `EntityManager.destroy`: `EntityNotFound` unless `isEntity(entity)`
(a range check), then `pool.release(entity)`. -/
def destroy (m : EntityManager) (entity : Nat) : Except MiskiErr EntityManager :=
  if entity < m.capacity then
    Except.ok { m with occupied := upd1 m.occupied entity false }
  else Except.error MiskiErr.entityNotFound

def getActiveCount (m : EntityManager) : Nat := occupiedCount m

/-- `EntityManager.getAvailableCount`: `capacity - pool.occupiedCount`. -/
def getAvailableCount (m : EntityManager) : Nat := m.capacity - occupiedCount m

/-- Iterate `create`, collecting the successfully returned ids in order. -/
def createRun (m : EntityManager) : Nat → List Nat × EntityManager
  | 0 => ([], m)
  | k + 1 =>
    match create m with
    | none => ([], m)
    | some (e, m1) =>
      let r := createRun m1 k
      (e :: r.1, r.2)

theorem createRun_not_mem (m : EntityManager) (x : Nat) (hx : m.occupied x = true) :
    ∀ k, x ∉ (createRun m k).1 := by
  intro k
  induction k generalizing m with
  | zero => simp [createRun]
  | succ k ih =>
    unfold createRun
    cases hc : create m with
    | none => simp
    | some r =>
      obtain ⟨e, m1⟩ := r
      simp only [List.mem_cons, not_or]
      have he : m.occupied e = false := by
        unfold create at hc
        cases hf : (List.range m.capacity).find? (fun i => ! m.occupied i) with
        | none => rw [hf] at hc; exact absurd hc (by simp)
        | some j =>
          rw [hf] at hc
          have hj := List.find?_some hf
          simp only [Option.some.injEq, Prod.mk.injEq] at hc
          rw [← hc.1]
          simpa using hj
      constructor
      · intro hxe
        rw [hxe] at hx
        rw [hx] at he
        exact absurd he (by simp)
      · apply ih
        have hm1 : m1.occupied = upd1 m.occupied e true := by
          unfold create at hc
          cases hf : (List.range m.capacity).find? (fun i => ! m.occupied i) with
          | none => rw [hf] at hc; exact absurd hc (by simp)
          | some j =>
            rw [hf] at hc
            simp only [Option.some.injEq, Prod.mk.injEq] at hc
            rw [← hc.2, hc.1]
        rw [hm1]
        unfold upd1
        split
        · rfl
        · exact hx

/-- C7: (a) with every id of the pool occupied, `create` returns the null
marker `none` — by its very type it raises nothing — and
`getAvailableCount` returns 0; (b) any run of successful `create` calls
returns pairwise distinct ids; (c) after `destroy` of an in-range entity, the
next `create` succeeds. -/
theorem entityManager_capacity_exhaustion (m : EntityManager) :
    ((∀ i, i < m.capacity → m.occupied i = true) →
      create m = none ∧ getAvailableCount m = 0) ∧
    (∀ k, (createRun m k).1.Nodup) ∧
    (∀ e, e < m.capacity →
      ∃ m1, destroy m e = Except.ok m1 ∧ (create m1).isSome = true) := by
  refine ⟨fun hfull => ⟨?_, ?_⟩, ?_, ?_⟩
  · unfold create
    have : (List.range m.capacity).find? (fun i => ! m.occupied i) = none := by
      rw [List.find?_eq_none]
      intro i hi
      simp [hfull i (List.mem_range.mp hi)]
    rw [this]
  · unfold getAvailableCount occupiedCount
    have : (List.range m.capacity).filter (fun i => m.occupied i) =
        List.range m.capacity := by
      rw [List.filter_eq_self]
      intro i hi
      simp [hfull i (List.mem_range.mp hi)]
    rw [this, List.length_range, Nat.sub_self]
  · intro k
    induction k generalizing m with
    | zero => simp [createRun]
    | succ k ih =>
      unfold createRun
      cases hc : create m with
      | none => simp
      | some r =>
        obtain ⟨e, m1⟩ := r
        simp only [List.nodup_cons]
        refine ⟨?_, ih m1⟩
        apply createRun_not_mem
        unfold create at hc
        cases hf : (List.range m.capacity).find? (fun i => ! m.occupied i) with
        | none => rw [hf] at hc; exact absurd hc (by simp)
        | some j =>
          rw [hf] at hc
          simp only [Option.some.injEq, Prod.mk.injEq] at hc
          rw [← hc.2, ← hc.1]
          simp [upd1]
  · intro e he
    refine ⟨{ m with occupied := upd1 m.occupied e false }, ?_, ?_⟩
    · unfold destroy
      rw [if_pos he]
    · unfold create
      cases hf : (List.range m.capacity).find?
          (fun i => ! (upd1 m.occupied e false) i) with
      | none =>
        rw [List.find?_eq_none] at hf
        have := hf e (List.mem_range.mpr he)
        simp [upd1] at this
      | some j => simp

/-- C7 (witness): a full pool of capacity 2 rejects `create` with the null
marker and reports 0 available; runs of creates from the empty pool return
distinct ids; destroying id 0 of the full pool lets the next `create`
succeed. -/
theorem entityManager_capacity_exhaustion_witness :
    (create ⟨2, fun _ => true⟩ = none ∧ getAvailableCount ⟨2, fun _ => true⟩ = 0) ∧
    ((createRun ⟨2, fun _ => false⟩ 3).1.Nodup) ∧
    (∃ m1, destroy ⟨2, fun _ => true⟩ 0 = Except.ok m1 ∧ (create m1).isSome = true) :=
  ⟨(entityManager_capacity_exhaustion ⟨2, fun _ => true⟩).1 (fun _ _ => rfl),
   (entityManager_capacity_exhaustion ⟨2, fun _ => false⟩).2.1 3,
   (entityManager_capacity_exhaustion ⟨2, fun _ => true⟩).2.2 0 (by decide)⟩

/-! ## Query result cache (`query-cache.ts`, `query-manager.ts`)

`QueryCache` keeps a global version counter and a map from query id to the
cached entity result; `QueryManager` keeps each query's last-seen version.
JS `Map`s keyed by query-id strings are modelled as association lists over
abstract `Nat` keys; the cached entity bitset is modelled by the entity list
it denotes; the recomputation closure is modelled by the value it would
produce.  (The bitset recycling pool only recycles allocations and does not
affect which value a lookup returns, so it is not modelled.) -/

def lookupKV {α : Type} : List (Nat × α) → Nat → Option α
  | [], _ => none
  | (k, v) :: t, k' => if k = k' then some v else lookupKV t k'

/-- JS `Map.delete`. -/
def eraseKV {α : Type} : List (Nat × α) → Nat → List (Nat × α)
  | [], _ => []
  | (a, b) :: t, k => if a = k then eraseKV t k else (a, b) :: eraseKV t k

/-- JS `Map.set`. -/
def insertKV {α : Type} (l : List (Nat × α)) (k : Nat) (v : α) : List (Nat × α) :=
  (k, v) :: eraseKV l k

theorem lookupKV_insert {α : Type} (l : List (Nat × α)) (k : Nat) (v : α) :
    lookupKV (insertKV l k v) k = some v := by
  simp [insertKV, lookupKV]

theorem lookupKV_erase_self {α : Type} (l : List (Nat × α)) (k : Nat) :
    lookupKV (eraseKV l k) k = none := by
  induction l with
  | nil => rfl
  | cons p t ih =>
    obtain ⟨a, b⟩ := p
    unfold eraseKV
    by_cases ha : a = k
    · rw [if_pos ha]
      exact ih
    · rw [if_neg ha]
      simp only [lookupKV, if_neg ha]
      exact ih

theorem lookupKV_erase_ne {α : Type} (l : List (Nat × α)) (k k' : Nat) (h : k' ≠ k) :
    lookupKV (eraseKV l k) k' = lookupKV l k' := by
  induction l with
  | nil => rfl
  | cons p t ih =>
    obtain ⟨a, b⟩ := p
    unfold eraseKV
    by_cases ha : a = k
    · rw [if_pos ha]
      have hak : ¬ a = k' := by
        rw [ha]
        exact Ne.symm h
      simp only [lookupKV, if_neg hak]
      exact ih
    · rw [if_neg ha]
      simp only [lookupKV]
      by_cases hak : a = k'
      · rw [if_pos hak, if_pos hak]
      · rw [if_neg hak, if_neg hak]
        exact ih

theorem lookupKV_insert_ne {α : Type} (l : List (Nat × α)) (k k' : Nat) (v : α)
    (h : k' ≠ k) : lookupKV (insertKV l k v) k' = lookupKV l k' := by
  simp only [insertKV, lookupKV, if_neg (Ne.symm h)]
  exact lookupKV_erase_ne l k k' h

/-- `QueryCache`: the global version and the per-query entity-result cache. -/
structure QueryCacheState where
  globalVersion : Nat
  entityCache : List (Nat × List Nat)

/-- `QueryCache.invalidate`: increment the global version. -/
def cacheInvalidate (c : QueryCacheState) : QueryCacheState :=
  { c with globalVersion := c.globalVersion + 1 }

/-- `QueryCache.getEntities(queryId, compute, lastVersion)`: if
`lastVersion < globalVersion` drop the cached entry (releasing it to the
pool), then if no entry is cached store `compute()`, and return the cached
entry. -/
def cacheGetEntities (c : QueryCacheState) (queryId : Nat) (compute : List Nat)
    (lastVersion : Nat) : List Nat × QueryCacheState :=
  let c1 := if lastVersion < c.globalVersion then
      { c with entityCache := eraseKV c.entityCache queryId }
    else c
  let c2 := if (lookupKV c1.entityCache queryId).isSome then c1
    else { c1 with entityCache := insertKV c1.entityCache queryId compute }
  ((lookupKV c2.entityCache queryId).getD compute, c2)

/-- `QueryManager`: the cache plus each query's last-seen version
(`lastQueryVersion`).  Queries are identified by their resolved id. -/
structure QueryManagerState where
  cache : QueryCacheState
  lastQueryVersion : List (Nat × Nat)

/-- `getEntitiesFromQuery` (`query-manager.ts`): look up the query's
last-seen version (`?? 0`), consult the cache, then stamp the last-seen
version to the cache's current version. -/
def getEntitiesFromQuery (s : QueryManagerState) (queryId : Nat)
    (compute : List Nat) : List Nat × QueryManagerState :=
  let lastV := (lookupKV s.lastQueryVersion queryId).getD 0
  let r := cacheGetEntities s.cache queryId compute lastV
  (r.1, { cache := r.2,
          lastQueryVersion := insertKV s.lastQueryVersion queryId r.2.globalVersion })

/-- `QueryManager.invalidate(query?)`: with a (registered) query, stamp that
query's last-seen version to the cache's current version; with no argument,
increment the cache's global version. -/
def invalidate (s : QueryManagerState) (query : Option Nat) : QueryManagerState :=
  match query with
  | some queryId =>
    { s with lastQueryVersion := insertKV s.lastQueryVersion queryId s.cache.globalVersion }
  | none => { s with cache := cacheInvalidate s.cache }

/-- C3 (counterexample): the claim says `invalidate(q)` marks `q`'s cached
result stale so that the next lookup recomputes it.  The code does the
opposite: in a state at global version 1 holding a stale cached result `[5]`
for query 1 (last-seen version 0), calling `invalidate (some 1)` and then
looking query 1 up with a recomputation that would produce `[7]` returns the
old cached `[5]`, not the recomputed `[7]` — stamping last-seen to current
marks the entry *valid*. -/
theorem invalidate_single_query_counterexample :
    (getEntitiesFromQuery
      (invalidate ⟨⟨1, [(1, [5])]⟩, [(1, 0)]⟩ (some 1)) 1 [7]).1 = [5] ∧
    ([5] : List Nat) ≠ [7] := by
  constructor
  · rfl
  · decide

/-- C3 (amended): `invalidate(q)` stamps `q`'s last-seen version to the
cache's current global version — leaving the cache contents and every other
query's last-seen version untouched, and making `q`'s cached entry *valid*,
so `q`'s next lookup returns the cached value instead of recomputing —
while `invalidate()` with no argument increments the global version, after
which every query's (version-stale) cached result is recomputed on next
lookup; and a cached value is returned untouched iff the query's last-seen
version is ≥ the cache's current version, and recomputed otherwise. -/
theorem invalidate_semantics (s : QueryManagerState) (queryId q2 : Nat)
    (compute v : List Nat)
    (hv : lookupKV s.cache.entityCache queryId = some v)
    (hne : q2 ≠ queryId)
    (hle : (lookupKV s.lastQueryVersion queryId).getD 0 ≤ s.cache.globalVersion) :
    ((invalidate s (some queryId)).cache = s.cache ∧
     lookupKV (invalidate s (some queryId)).lastQueryVersion queryId =
       some s.cache.globalVersion ∧
     lookupKV (invalidate s (some queryId)).lastQueryVersion q2 =
       lookupKV s.lastQueryVersion q2) ∧
    (getEntitiesFromQuery (invalidate s (some queryId)) queryId compute).1 = v ∧
    ((invalidate s none).cache.globalVersion = s.cache.globalVersion + 1 ∧
     (getEntitiesFromQuery (invalidate s none) queryId compute).1 = compute) ∧
    (getEntitiesFromQuery s queryId compute).1 =
      (if s.cache.globalVersion ≤ (lookupKV s.lastQueryVersion queryId).getD 0
       then v else compute) := by
  have hfresh : ∀ c : QueryCacheState, ∀ lastV, ¬ lastV < c.globalVersion →
      lookupKV c.entityCache queryId = some v →
      (cacheGetEntities c queryId compute lastV).1 = v := by
    intro c lastV hlt hl
    simp only [cacheGetEntities]
    rw [if_neg hlt, hl]
    simp [hl]
  have hstale : ∀ c : QueryCacheState, ∀ lastV, lastV < c.globalVersion →
      (cacheGetEntities c queryId compute lastV).1 = compute := by
    intro c lastV hlt
    simp only [cacheGetEntities]
    rw [if_pos hlt]
    simp only [lookupKV_erase_self, Option.isSome_none, Bool.false_eq_true, if_false]
    simp [lookupKV_insert]
  refine ⟨⟨rfl, lookupKV_insert _ _ _, lookupKV_insert_ne _ _ _ _ hne⟩, ?_, ⟨rfl, ?_⟩, ?_⟩
  · unfold getEntitiesFromQuery
    simp only [invalidate, lookupKV_insert, Option.getD_some]
    exact hfresh s.cache s.cache.globalVersion (lt_irrefl _) hv
  · unfold getEntitiesFromQuery
    simp only [invalidate, cacheInvalidate]
    exact hstale _ _ (Nat.lt_succ_of_le hle)
  · unfold getEntitiesFromQuery
    by_cases hc : s.cache.globalVersion ≤ (lookupKV s.lastQueryVersion queryId).getD 0
    · rw [if_pos hc]
      exact hfresh s.cache _ (not_lt_of_ge hc) hv
    · rw [if_neg hc]
      exact hstale s.cache _ (lt_of_not_ge hc)

/-- C3 (witness): concrete instance: version-2 cache holding `[9]` for query
3 at last-seen version 2, with query 4 distinct. -/
theorem invalidate_semantics_witness :
    (lookupKV (⟨⟨2, [(3, [9])]⟩, [(3, 2)]⟩ : QueryManagerState).cache.entityCache 3 =
       some [9] ∧ (4 : Nat) ≠ 3 ∧
     (lookupKV (⟨⟨2, [(3, [9])]⟩, [(3, 2)]⟩ : QueryManagerState).lastQueryVersion 3).getD 0 ≤
       (⟨⟨2, [(3, [9])]⟩, [(3, 2)]⟩ : QueryManagerState).cache.globalVersion) ∧
    ((getEntitiesFromQuery
        (invalidate ⟨⟨2, [(3, [9])]⟩, [(3, 2)]⟩ (some 3)) 3 [11]).1 = [9] ∧
     (getEntitiesFromQuery (invalidate ⟨⟨2, [(3, [9])]⟩, [(3, 2)]⟩ none) 3 [11]).1 = [11]) :=
  ⟨⟨by decide, by decide, by decide⟩,
   (invalidate_semantics ⟨⟨2, [(3, [9])]⟩, [(3, 2)]⟩ 3 4 [11] [9]
     (by decide) (by decide) (by decide)).2.1,
   (invalidate_semantics ⟨⟨2, [(3, [9])]⟩, [(3, 2)]⟩ 3 4 [11] [9]
     (by decide) (by decide) (by decide)).2.2.1.2⟩

/-! ## World state (`World.ts`, `component-manager.ts`, `ArchetypeManager.ts`)

One record holding the component manager's bitsets and storage, the entity
pool's occupancy, and the archetype manager's structures of an initialized
world.  Components are identified by their dense instance id (`0 ≤ id <
ncomp`; a component is registered iff its id is in range — the source keys
its registry `Map` by component object, unregistered components being the
objects outside it).  Archetypes are identified by their component bitmask
(`bitfield.buffer.toString()` in the source is injective on masks of the
world's fixed component count, and the registry de-duplicates by it), so the
registry is modelled as a total map from masks to `ArchetypeData`; masks that
were never created carry never-touched (all-false) bitsets, which is exactly
the state a freshly created archetype starts in.  Schema fields are `Nat`
keys and typed-array cells are exact integer values, as for the proxy. -/

structure WorldState where
  capacity : Nat
  ncomp : Nat
  active : Nat → Bool
  owners : Nat → Nat → Bool
  changed : Nat → Nat → Bool
  store : Nat → Nat → Nat → Int
  fields : Nat → List Nat
  entityArch : Nat → List Bool
  arch : List Bool → ArchetypeData

/-- `ComponentManager.#getEntityComponentsDirect`: the instance ids whose
owner bit at `entity` is set, in registry order. -/
def getEntityComponentsDirect (s : WorldState) (entity : Nat) : List Nat :=
  (List.range s.ncomp).filter (fun i => s.owners i entity)

/-- The `addToEntity` data-copy loop: `for key in data: if key in storage:
storage[key][entity] = data[key]`. -/
def copyData (s : WorldState) (c entity : Nat) (kvs : List (Nat × Int)) : WorldState :=
  kvs.foldl
    (fun acc kv =>
      if kv.1 ∈ acc.fields c then { acc with store := upd3 acc.store c kv.1 entity kv.2 }
      else acc)
    s

/-- `ComponentManager.addToEntity`: `NotRegistered` for an unknown component;
otherwise set the owner bit and the changed bit at `entity`, copy any
provided field values into storage, and return the component list computed
directly from the owner bitsets. -/
def addToEntity (s : WorldState) (c entity : Nat) (data : Option (List (Nat × Int))) :
    Except MiskiErr (WorldState × List Nat) :=
  if c < s.ncomp then
    let s1 : WorldState :=
      { s with owners := upd2 s.owners c entity true,
               changed := upd2 s.changed c entity true }
    let s2 := match data with
      | none => s1
      | some kvs => copyData s1 c entity kvs
    Except.ok (s2, getEntityComponentsDirect s2 entity)
  else Except.error MiskiErr.notRegistered

/-- `ComponentManager.removeFromEntity`: for an unknown component, return the
owner-derived component list with no state change and no error; otherwise
clear the owner bit and the changed bit at `entity` and return the remaining
list. -/
def removeFromEntity (s : WorldState) (c entity : Nat) : WorldState × List Nat :=
  if c < s.ncomp then
    let s1 : WorldState :=
      { s with owners := upd2 s.owners c entity false,
               changed := upd2 s.changed c entity false }
    (s1, getEntityComponentsDirect s1 entity)
  else (s, getEntityComponentsDirect s entity)

/-- `ComponentManager.refresh`: clear every component's changed bitset. -/
def cmRefresh (s : WorldState) : WorldState :=
  { s with changed := fun _ _ => false }

/-- The root archetype's all-zero component mask. -/
def rootMask (n : Nat) : List Bool := List.replicate n false

/-- The scratch bitfield built by `ArchetypeManager.update`: bit `i` set iff
instance id `i` occurs in the passed component list. -/
def maskFromIds (n : Nat) (ids : List Nat) : List Bool :=
  (List.range n).map (fun i => decide (i ∈ ids))

/-- The common move performed by `ArchetypeManager.update` and
`ArchetypeManager.set` once the target archetype differs from the current
one: `oldArchetype.removeEntity(entity)`, `archetype.addEntity(entity)`,
`entityArchetypes[entity] = archetype`. -/
def moveEntity (s : WorldState) (entity : Nat) (m : List Bool) : WorldState :=
  let oldM := s.entityArch entity
  let s1 := { s with arch := updM s.arch oldM (removeEntity (s.arch oldM) entity) }
  let s2 := { s1 with arch := updM s1.arch m (addEntity (s1.arch m) entity) }
  { s2 with entityArch := upd1 s2.entityArch entity m }

/-- `ArchetypeManager.update`: build the scratch mask from the component
list; if the entity's current archetype already has that mask, return
unchanged; otherwise get-or-create the archetype for the mask and move the
entity into it. -/
def amUpdate (s : WorldState) (entity : Nat) (ids : List Nat) : WorldState :=
  let m := maskFromIds s.ncomp ids
  if s.entityArch entity = m then s else moveEntity s entity m

/-- `ArchetypeManager.set`: if the entity is already seated in the target
archetype do nothing, else move it (the source orders the entity-map write
between remove and add; the resulting state is the same). -/
def amSet (s : WorldState) (m : List Bool) (entity : Nat) : WorldState :=
  if s.entityArch entity = m then s else moveEntity s entity m

/-- `ArchetypeManager.reset`: seat the entity in the root archetype. -/
def amReset (s : WorldState) (entity : Nat) : WorldState :=
  amSet s (rootMask s.ncomp) entity

/-- `ArchetypeManager.refresh`: after rebuilding the query↔archetype
incidence (not modelled — it affects no field modelled here),
`archetype.refresh()` is invoked unconditionally on every archetype,
clearing its entered/exited bitsets. -/
def amRefresh (s : WorldState) : WorldState :=
  { s with arch := fun m => refreshArchetype (s.arch m) }

/-- `World.refresh(retainChanged)`: archetype-manager refresh, then — unless
`retainChanged` — component-manager refresh (the query-cache version bump is
modelled separately in `QueryManagerState`). -/
def worldRefresh (s : WorldState) (retainChanged : Bool) : WorldState :=
  let s1 := amRefresh s
  if retainChanged then s1 else cmRefresh s1

/-- `World`'s `addComponentToEntity`: `componentManager.addToEntity`, then
`archetypeManager.update` with the returned instance list, then — the world
being initialized — `refresh(true)`. -/
def addComponentToEntity (s : WorldState) (c entity : Nat)
    (data : Option (List (Nat × Int))) : Except MiskiErr WorldState :=
  match addToEntity s c entity data with
  | Except.error err => Except.error err
  | Except.ok r => Except.ok (worldRefresh (amUpdate r.1 entity r.2) true)

/-- `World`'s `removeComponentFromEntity`: `componentManager.removeFromEntity`,
then `archetypeManager.update`, then `refresh(true)`. -/
def removeComponentFromEntity (s : WorldState) (c entity : Nat) : WorldState :=
  let r := removeFromEntity s c entity
  worldRefresh (amUpdate r.1 entity r.2) true

/-- `World`'s `destroyEntity`: remove every component of the entity's current
archetype, reset the entity to the root archetype, release the id
(`queryManager.invalidate()` is modelled separately). -/
def destroyEntity (s : WorldState) (entity : Nat) : WorldState :=
  let comps := (List.range s.ncomp).filter (fun i => (s.entityArch entity).getD i false)
  let s1 := comps.foldl (fun acc c => (removeFromEntity acc c entity).1) s
  let s2 := amReset s1 entity
  { s2 with active := upd1 s2.active entity false }

/-- `world.entities.create` marks the id the pool handed out as occupied; it
touches no component or archetype state. -/
def createEntity (s : WorldState) (e : Nat) : WorldState :=
  { s with active := upd1 s.active e true }

/-- The world immediately after `init()`: no entity active, all bitsets and
storage zeroed, every entity slot seated in the root archetype (whose
`entities` bitset therefore holds every slot), entered/exited cleared by the
`refresh()` that ends `init()`. -/
def initWorld (capacity ncomp : Nat) (flds : Nat → List Nat) : WorldState :=
  { capacity := capacity, ncomp := ncomp,
    active := fun _ => false,
    owners := fun _ _ => false,
    changed := fun _ _ => false,
    store := fun _ _ _ => 0,
    fields := flds,
    entityArch := fun _ => rootMask ncomp,
    arch := fun m =>
      { entities := fun e => decide (m = rootMask ncomp) && decide (e < capacity),
        entered := fun _ => false,
        exited := fun _ => false } }

/-- One public world operation on an initialized world.  `create` is
nondeterministic in the id the external pool hands out; data writes through
the proxy or `setEntityData` touch storage and (for the proxy) the changed
bitset. -/
inductive Step : WorldState → WorldState → Prop where
  | create (s : WorldState) (e : Nat) (he : e < s.capacity)
      (hfree : s.active e = false) : Step s (createEntity s e)
  | destroy (s : WorldState) (e : Nat) (he : e < s.capacity) :
      Step s (destroyEntity s e)
  | addComponent (s : WorldState) (c e : Nat) (d : Option (List (Nat × Int)))
      (s' : WorldState) (he : e < s.capacity)
      (h : addComponentToEntity s c e d = Except.ok s') : Step s s'
  | removeComponent (s : WorldState) (c e : Nat) (he : e < s.capacity) :
      Step s (removeComponentFromEntity s c e)
  | refresh (s : WorldState) (retain : Bool) : Step s (worldRefresh s retain)
  | writeData (s : WorldState) (c k e : Nat) (v : Int) (trackChanged : Bool) :
      Step s { s with store := upd3 s.store c k e v,
                      changed := if trackChanged then upd2 s.changed c e true
                                 else s.changed }

/-- States of an initialized world reachable through public operations. -/
def Reachable (capacity ncomp : Nat) (flds : Nat → List Nat) (s : WorldState) : Prop :=
  Relation.ReflTransGen Step (initWorld capacity ncomp flds) s

theorem copyData_eq (s : WorldState) (c e : Nat) (kvs : List (Nat × Int)) :
    copyData s c e kvs = { s with store := (copyData s c e kvs).store } := by
  induction kvs generalizing s with
  | nil => rfl
  | cons kv t ih =>
    unfold copyData
    simp only [List.foldl_cons]
    unfold copyData at ih
    by_cases h : kv.1 ∈ s.fields c
    · rw [if_pos h]
      exact ih { s with store := upd3 s.store c kv.1 e kv.2 }
    · rw [if_neg h]
      exact ih s

theorem copyData_store_untouched (s : WorldState) (c e : Nat) (kvs : List (Nat × Int))
    (k c2 e2 : Nat) (hk : ∀ r ∈ kvs, r.1 ≠ k) :
    (copyData s c e kvs).store c2 k e2 = s.store c2 k e2 := by
  induction kvs generalizing s with
  | nil => rfl
  | cons q t ih =>
    unfold copyData
    simp only [List.foldl_cons]
    unfold copyData at ih
    have hqk : q.1 ≠ k := hk q (List.mem_cons_self q t)
    have hkt : ∀ r ∈ t, r.1 ≠ k := fun r hr => hk r (List.mem_cons_of_mem q hr)
    by_cases h : q.1 ∈ s.fields c
    · rw [if_pos h]
      rw [ih _ hkt]
      simp only [upd3]
      rw [if_neg]
      intro hcon
      exact hqk hcon.2.1.symm
    · rw [if_neg h]
      exact ih s hkt

theorem copyData_store_lookup (c e : Nat) (kvs : List (Nat × Int)) :
    ∀ s : WorldState, (kvs.map Prod.fst).Nodup → ∀ p ∈ kvs, p.1 ∈ s.fields c →
      (copyData s c e kvs).store c p.1 e = p.2 := by
  induction kvs with
  | nil =>
    intro s _ p hp
    cases hp
  | cons q t ih =>
    intro s hnd p hp hf
    rw [List.map_cons, List.nodup_cons] at hnd
    unfold copyData
    simp only [List.foldl_cons]
    unfold copyData at ih
    rcases List.mem_cons.mp hp with rfl | hpt
    · rw [if_pos hf]
      have hkt : ∀ r ∈ t, r.1 ≠ p.1 := by
        intro r hr hcon
        exact hnd.1 (hcon ▸ List.mem_map_of_mem Prod.fst hr)
      have := copyData_store_untouched { s with store := upd3 s.store c p.1 e p.2 }
        c e t p.1 c e hkt
      unfold copyData at this
      rw [this]
      simp [upd3]
    · by_cases h : q.1 ∈ s.fields c
      · rw [if_pos h]
        exact ih { s with store := upd3 s.store c q.1 e q.2 } hnd.2 p hpt hf
      · rw [if_neg h]
        exact ih s hnd.2 p hpt hf

/-- C5: for every entity `e` in range, `addToEntity(c, e, data?)` raises
`NotRegistered` iff `c` is not registered in the world; when `c` is
registered it sets `c`'s owner bit and changed bit at `e`, copies any
provided field values into storage, and returns the entity's current
component instance list computed directly from the owner bitsets —
containing exactly the components whose owner bit at `e` is set. -/
theorem addToEntity_spec (s : WorldState) (c e : Nat) (d : Option (List (Nat × Int)))
    (he : e < s.capacity) :
    (¬ c < s.ncomp → addToEntity s c e d = Except.error MiskiErr.notRegistered) ∧
    (c < s.ncomp → ∃ s2 l, addToEntity s c e d = Except.ok (s2, l) ∧
      s2.owners c e = true ∧ s2.changed c e = true ∧
      l = (List.range s.ncomp).filter (fun i => s2.owners i e) ∧
      ∀ kvs, d = some kvs → (kvs.map Prod.fst).Nodup →
        ∀ p ∈ kvs, p.1 ∈ s.fields c → s2.store c p.1 e = p.2) := by
  constructor
  · intro hc
    unfold addToEntity
    rw [if_neg hc]
  · intro hc
    cases d with
    | none =>
      refine ⟨{ s with owners := upd2 s.owners c e true,
                       changed := upd2 s.changed c e true },
              getEntityComponentsDirect
                { s with owners := upd2 s.owners c e true,
                         changed := upd2 s.changed c e true } e, ?_, ?_, ?_, ?_, ?_⟩
      · unfold addToEntity
        rw [if_pos hc]
      · simp [upd2]
      · simp [upd2]
      · rfl
      · intro kvs hkvs
        cases hkvs
    | some kvs =>
      refine ⟨copyData { s with owners := upd2 s.owners c e true,
                                changed := upd2 s.changed c e true } c e kvs,
              getEntityComponentsDirect
                (copyData { s with owners := upd2 s.owners c e true,
                                   changed := upd2 s.changed c e true } c e kvs) e,
              ?_, ?_, ?_, ?_, ?_⟩
      · unfold addToEntity
        rw [if_pos hc]
      · rw [copyData_eq]
        simp [upd2]
      · rw [copyData_eq]
        simp [upd2]
      · rw [copyData_eq]
        rfl
      · intro kvs2 hkvs2 hnd p hp hf
        cases hkvs2
        exact copyData_store_lookup c e kvs _ hnd p hp hf

/-- C5 (witness): a world of 2 components and capacity 2; adding component 0
with data `{field 0 ↦ 42}` to entity 1. -/
theorem addToEntity_spec_witness :
    (1 < (initWorld 2 2 (fun _ => [0])).capacity) ∧
    ((¬ 0 < (initWorld 2 2 (fun _ => [0])).ncomp →
       addToEntity (initWorld 2 2 (fun _ => [0])) 0 1 (some [(0, 42)]) =
         Except.error MiskiErr.notRegistered) ∧
     (0 < (initWorld 2 2 (fun _ => [0])).ncomp →
       ∃ s2 l, addToEntity (initWorld 2 2 (fun _ => [0])) 0 1 (some [(0, 42)]) =
           Except.ok (s2, l) ∧
         s2.owners 0 1 = true ∧ s2.changed 0 1 = true ∧
         l = (List.range (initWorld 2 2 (fun _ => [0])).ncomp).filter
           (fun i => s2.owners i 1) ∧
         ∀ kvs, some [(0, 42)] = some kvs → (kvs.map Prod.fst).Nodup →
           ∀ p ∈ kvs, p.1 ∈ (initWorld 2 2 (fun _ => [0])).fields 0 →
             s2.store 0 p.1 1 = p.2)) :=
  ⟨by decide, addToEntity_spec (initWorld 2 2 (fun _ => [0])) 0 1 (some [(0, 42)])
    (by decide)⟩

/-- C8: for every entity `e` and unregistered component `c`,
`removeFromEntity(c, e)` — whose type, unlike `addToEntity`'s, has no error
outcome on unknown components — changes no state (in particular every
component's owner and changed bitsets are untouched) and returns the
entity's current component instance list computed from the owner bitsets,
whereas `addToEntity` raises `NotRegistered` for the same component. -/
theorem removeFromEntity_unregistered (s : WorldState) (c e : Nat)
    (hc : ¬ c < s.ncomp) :
    removeFromEntity s c e = (s, getEntityComponentsDirect s e) ∧
    addToEntity s c e none = Except.error MiskiErr.notRegistered := by
  constructor
  · unfold removeFromEntity
    rw [if_neg hc]
  · unfold addToEntity
    rw [if_neg hc]

/-- C8 (witness): removing the unregistered component 5 from entity 0 in a
1-component world. -/
theorem removeFromEntity_unregistered_witness :
    (¬ 5 < (initWorld 1 1 (fun _ => [])).ncomp) ∧
    (removeFromEntity (initWorld 1 1 (fun _ => [])) 5 0 =
      (initWorld 1 1 (fun _ => []),
       getEntityComponentsDirect (initWorld 1 1 (fun _ => [])) 0) ∧
     addToEntity (initWorld 1 1 (fun _ => [])) 5 0 none =
       Except.error MiskiErr.notRegistered) :=
  ⟨by decide, removeFromEntity_unregistered (initWorld 1 1 (fun _ => [])) 5 0 (by decide)⟩

/-- C2 (evaluation at the failing input): world of capacity 1 with one tag
component, entity 0 created, the sequence add component 0 → remove → add
performed through the world API of an initialized world, observed afterwards
within the same (user-level) refresh window.  The claim — and spec §5(c) /
scenario 2 — expects the entity's `entered` bit to be set, `exited` clear and
`changed` set; the code leaves `entered` CLEAR (each mutation ends in
`world.refresh(retainChanged=true)`, whose archetype-manager pass
unconditionally invokes `archetype.refresh()`, wiping `entered`/`exited`),
while `exited` is clear and `changed` is set as claimed. -/
theorem addRemoveAdd_entered_cleared :
    ∃ s2 s4 : WorldState,
      addComponentToEntity (createEntity (initWorld 1 1 (fun _ => [])) 0) 0 0 none =
        Except.ok s2 ∧
      addComponentToEntity (removeComponentFromEntity s2 0 0) 0 0 none =
        Except.ok s4 ∧
      (s4.arch (s4.entityArch 0)).entered 0 = false ∧
      (s4.arch (s4.entityArch 0)).exited 0 = false ∧
      (s4.arch (rootMask 1)).entered 0 = false ∧
      (s4.arch (rootMask 1)).exited 0 = false ∧
      s4.changed 0 0 = true := by
  refine ⟨_, _, rfl, rfl, ?_, ?_, ?_, ?_, ?_⟩ <;> rfl

/-! ### The archetype-membership invariant (claim C6) -/

theorem addEntity_entities_ne (a : ArchetypeData) (e0 e : Nat) (h : e ≠ e0) :
    (addEntity a e0).entities e = a.entities e := by
  unfold addEntity
  split
  · rfl
  · simp [upd1, h]

theorem removeEntity_entities_ne (a : ArchetypeData) (e0 e : Nat) (h : e ≠ e0) :
    (removeEntity a e0).entities e = a.entities e := by
  unfold removeEntity
  split
  · simp [upd1, h]
  · rfl

theorem addEntity_entities_self (a : ArchetypeData) (e0 : Nat)
    (h : a.entities e0 = false) : (addEntity a e0).entities e0 = true := by
  unfold addEntity
  rw [if_neg (by simp [h])]
  simp [upd1]

theorem removeEntity_entities_self (a : ArchetypeData) (e0 : Nat)
    (h : a.entities e0 = true) : (removeEntity a e0).entities e0 = false := by
  unfold removeEntity
  rw [if_pos h]
  simp [upd1]

/-- Invariant A1: every entity slot is seated in exactly one archetype — the
one the entity→archetype map names — whose membership bitset holds it, and
is a member of no other archetype. -/
def ArchInv (s : WorldState) : Prop :=
  ∀ e, e < s.capacity →
    (s.arch (s.entityArch e)).entities e = true ∧
    ∀ m, m ≠ s.entityArch e → (s.arch m).entities e = false

theorem archInv_of_eq (s s' : WorldState) (h : ArchInv s)
    (hcap : s'.capacity = s.capacity)
    (harch : ∀ mm x, (s'.arch mm).entities x = (s.arch mm).entities x)
    (hea : s'.entityArch = s.entityArch) : ArchInv s' := by
  intro e he
  rw [hcap] at he
  refine ⟨?_, ?_⟩
  · rw [hea, harch]
    exact (h e he).1
  · intro mm hmm
    rw [hea] at hmm
    rw [harch]
    exact (h e he).2 mm hmm

theorem archInv_init (capacity ncomp : Nat) (flds : Nat → List Nat) :
    ArchInv (initWorld capacity ncomp flds) := by
  intro e he
  have he' : e < capacity := he
  constructor
  · simp only [initWorld]
    simp [he']
  · intro m hm
    have hm' : m ≠ rootMask ncomp := hm
    simp only [initWorld]
    simp [hm']

theorem moveEntity_entities_other (s : WorldState) (e0 : Nat) (m : List Bool)
    (x : Nat) (hx : x ≠ e0) (mm : List Bool) :
    ((moveEntity s e0 m).arch mm).entities x = (s.arch mm).entities x := by
  unfold moveEntity
  simp only [updM]
  by_cases h1 : mm = m
  · rw [if_pos h1]
    rw [addEntity_entities_ne _ _ _ hx]
    by_cases h2 : m = s.entityArch e0
    · rw [if_pos h2]
      rw [removeEntity_entities_ne _ _ _ hx]
      rw [h1, h2]
    · rw [if_neg h2]
      rw [h1]
  · rw [if_neg h1]
    by_cases h2 : mm = s.entityArch e0
    · rw [if_pos h2]
      rw [removeEntity_entities_ne _ _ _ hx]
      rw [h2]
    · rw [if_neg h2]

theorem moveEntity_entities_self_new (s : WorldState) (e0 : Nat) (m : List Bool)
    (hm : m ≠ s.entityArch e0) (hfalse : (s.arch m).entities e0 = false) :
    ((moveEntity s e0 m).arch m).entities e0 = true := by
  unfold moveEntity
  simp only [updM, if_pos]
  rw [if_neg hm]
  exact addEntity_entities_self _ _ hfalse

theorem moveEntity_entities_self_old (s : WorldState) (e0 : Nat) (m : List Bool)
    (hm : m ≠ s.entityArch e0)
    (htrue : (s.arch (s.entityArch e0)).entities e0 = true) :
    ((moveEntity s e0 m).arch (s.entityArch e0)).entities e0 = false := by
  unfold moveEntity
  simp only [updM]
  rw [if_neg (Ne.symm hm)]
  simp only [if_true, ite_true, eq_self_iff_true]
  exact removeEntity_entities_self _ _ htrue

theorem moveEntity_entities_self_other (s : WorldState) (e0 : Nat) (m mm : List Bool)
    (h1 : mm ≠ m) (h2 : mm ≠ s.entityArch e0) :
    ((moveEntity s e0 m).arch mm).entities e0 = (s.arch mm).entities e0 := by
  unfold moveEntity
  simp only [updM]
  rw [if_neg h1, if_neg h2]

theorem moveEntity_entityArch (s : WorldState) (e0 x : Nat) (m : List Bool) :
    (moveEntity s e0 m).entityArch x = if x = e0 then m else s.entityArch x := by
  simp [moveEntity, upd1]

theorem moveEntity_archInv (s : WorldState) (e0 : Nat) (m : List Bool)
    (hs : ArchInv s) (he0 : e0 < s.capacity) (hm : m ≠ s.entityArch e0) :
    ArchInv (moveEntity s e0 m) := by
  intro e he
  have he' : e < s.capacity := he
  rw [moveEntity_entityArch]
  by_cases heq : e = e0
  · subst heq
    rw [if_pos rfl]
    constructor
    · exact moveEntity_entities_self_new s e m hm ((hs e he').2 m hm)
    · intro mm hmm
      by_cases h2 : mm = s.entityArch e
      · rw [h2]
        exact moveEntity_entities_self_old s e m hm (hs e he').1
      · rw [moveEntity_entities_self_other s e m mm hmm h2]
        exact (hs e he').2 mm h2
  · rw [if_neg heq]
    constructor
    · rw [moveEntity_entities_other s e0 m e heq]
      exact (hs e he').1
    · intro mm hmm
      rw [moveEntity_entities_other s e0 m e heq]
      exact (hs e he').2 mm hmm

theorem amUpdate_archInv (s : WorldState) (e : Nat) (ids : List Nat)
    (hs : ArchInv s) (he : e < s.capacity) : ArchInv (amUpdate s e ids) := by
  have hdef : amUpdate s e ids =
      if s.entityArch e = maskFromIds s.ncomp ids then s
      else moveEntity s e (maskFromIds s.ncomp ids) := rfl
  rw [hdef]
  split
  · exact hs
  · rename_i h
    exact moveEntity_archInv s e _ hs he (fun hc => h hc.symm)

theorem amSet_archInv (s : WorldState) (m : List Bool) (e : Nat)
    (hs : ArchInv s) (he : e < s.capacity) : ArchInv (amSet s m e) := by
  unfold amSet
  split
  · exact hs
  · rename_i h
    exact moveEntity_archInv s e m hs he (fun hc => h hc.symm)

theorem worldRefresh_archInv (s : WorldState) (retain : Bool)
    (hs : ArchInv s) : ArchInv (worldRefresh s retain) := by
  cases retain
  · exact archInv_of_eq s _ hs rfl (fun _ _ => rfl) rfl
  · exact archInv_of_eq s _ hs rfl (fun _ _ => rfl) rfl

theorem removeFromEntity_fst_projs (s : WorldState) (c e : Nat) :
    (removeFromEntity s c e).1.capacity = s.capacity ∧
    (removeFromEntity s c e).1.arch = s.arch ∧
    (removeFromEntity s c e).1.entityArch = s.entityArch := by
  unfold removeFromEntity
  split
  · exact ⟨rfl, rfl, rfl⟩
  · exact ⟨rfl, rfl, rfl⟩

theorem foldl_removeFromEntity_projs (e : Nat) (l : List Nat) :
    ∀ s : WorldState,
      (l.foldl (fun acc c => (removeFromEntity acc c e).1) s).capacity = s.capacity ∧
      (l.foldl (fun acc c => (removeFromEntity acc c e).1) s).arch = s.arch ∧
      (l.foldl (fun acc c => (removeFromEntity acc c e).1) s).entityArch = s.entityArch := by
  induction l with
  | nil =>
    intro s
    exact ⟨rfl, rfl, rfl⟩
  | cons c t ih =>
    intro s
    simp only [List.foldl_cons]
    obtain ⟨h1, h2, h3⟩ := removeFromEntity_fst_projs s c e
    obtain ⟨g1, g2, g3⟩ := ih ((removeFromEntity s c e).1)
    exact ⟨g1.trans h1, g2.trans h2, g3.trans h3⟩

theorem archInv_step (s s' : WorldState) (hs : ArchInv s) (hstep : Step s s') :
    ArchInv s' := by
  cases hstep with
  | create e he hfree =>
    exact archInv_of_eq s _ hs rfl (fun _ _ => rfl) rfl
  | destroy e he =>
    obtain ⟨h1, h2, h3⟩ := foldl_removeFromEntity_projs e
      ((List.range s.ncomp).filter (fun i => (s.entityArch e).getD i false)) s
    have hinv1 : ArchInv (((List.range s.ncomp).filter
        (fun i => (s.entityArch e).getD i false)).foldl
        (fun acc c => (removeFromEntity acc c e).1) s) :=
      archInv_of_eq s _ hs h1 (fun mm x => by rw [h2]) h3
    have hinv2 : ArchInv (amReset (((List.range s.ncomp).filter
        (fun i => (s.entityArch e).getD i false)).foldl
        (fun acc c => (removeFromEntity acc c e).1) s) e) :=
      amSet_archInv _ (rootMask (((List.range s.ncomp).filter
        (fun i => (s.entityArch e).getD i false)).foldl
        (fun acc c => (removeFromEntity acc c e).1) s).ncomp) e hinv1
        (by rw [h1]; exact he)
    exact archInv_of_eq _ _ hinv2 rfl (fun _ _ => rfl) rfl
  | addComponent c e d s2 he h =>
    unfold addComponentToEntity at h
    unfold addToEntity at h
    by_cases hc : c < s.ncomp
    · rw [if_pos hc] at h
      simp only [Except.ok.injEq] at h
      subst h
      cases d with
      | none =>
        have hinv1 : ArchInv { s with owners := upd2 s.owners c e true,
                                      changed := upd2 s.changed c e true } :=
          archInv_of_eq s _ hs rfl (fun _ _ => rfl) rfl
        exact worldRefresh_archInv _ true (amUpdate_archInv _ e _ hinv1 he)
      | some kvs =>
        have hinv1 : ArchInv { s with owners := upd2 s.owners c e true,
                                      changed := upd2 s.changed c e true } :=
          archInv_of_eq s _ hs rfl (fun _ _ => rfl) rfl
        have hinv2 : ArchInv (copyData { s with owners := upd2 s.owners c e true,
                                                changed := upd2 s.changed c e true } c e kvs) := by
          apply archInv_of_eq _ _ hinv1
          · rw [copyData_eq]
          · intro mm x
            rw [copyData_eq]
          · rw [copyData_eq]
        apply worldRefresh_archInv _ true
        apply amUpdate_archInv _ e _ hinv2
        have : (copyData { s with owners := upd2 s.owners c e true,
                                  changed := upd2 s.changed c e true } c e kvs).capacity =
            s.capacity := by
          rw [copyData_eq]
        rw [this]
        exact he
    · rw [if_neg hc] at h
      cases h
  | removeComponent c e he =>
    unfold removeComponentFromEntity
    obtain ⟨h1, h2, h3⟩ := removeFromEntity_fst_projs s c e
    have hinv1 : ArchInv (removeFromEntity s c e).1 :=
      archInv_of_eq s _ hs h1 (fun mm x => by rw [h2]) h3
    apply worldRefresh_archInv _ true
    apply amUpdate_archInv _ e _ hinv1
    rw [h1]
    exact he
  | refresh retain =>
    exact worldRefresh_archInv s retain hs
  | writeData c k e v trackChanged =>
    exact archInv_of_eq s _ hs rfl (fun _ _ => rfl) rfl

theorem archInv_reachable (capacity ncomp : Nat) (flds : Nat → List Nat)
    (s : WorldState) (h : Reachable capacity ncomp flds s) : ArchInv s := by
  induction h with
  | refl => exact archInv_init capacity ncomp flds
  | tail hr hstep ih => exact archInv_step _ _ ih hstep

/-- C6: in every reachable state of an initialized world, every active
entity `e` (in fact every entity slot) is seated by the entity→archetype map
in an archetype whose `entities` bitset has bit `e` set, and `e` is a member
of no other archetype's `entities` bitset; and immediately after creation
(`init()` seats every slot) the entity's archetype is the empty-mask root. -/
theorem world_entity_archetype_invariant (capacity ncomp : Nat)
    (flds : Nat → List Nat) (s : WorldState)
    (h : Reachable capacity ncomp flds s) :
    (∀ e, e < s.capacity → s.active e = true →
      (s.arch (s.entityArch e)).entities e = true ∧
      ∀ m, m ≠ s.entityArch e → (s.arch m).entities e = false) ∧
    (∀ e, e < capacity →
      (initWorld capacity ncomp flds).entityArch e = rootMask ncomp ∧
      ((initWorld capacity ncomp flds).arch (rootMask ncomp)).entities e = true) := by
  constructor
  · intro e he _
    exact archInv_reachable capacity ncomp flds s h e he
  · intro e he
    constructor
    · rfl
    · simp [initWorld, he]

/-- C6 (witness): the freshly initialized world of capacity 1 with one
component is reachable (zero steps); entity 0 is seated exactly in the root
archetype. -/
theorem world_entity_archetype_invariant_witness :
    (∀ e, e < (initWorld 1 1 (fun _ => [])).capacity →
      (initWorld 1 1 (fun _ => [])).active e = true →
      ((initWorld 1 1 (fun _ => [])).arch
        ((initWorld 1 1 (fun _ => [])).entityArch e)).entities e = true ∧
      ∀ m, m ≠ (initWorld 1 1 (fun _ => [])).entityArch e →
        ((initWorld 1 1 (fun _ => [])).arch m).entities e = false) ∧
    (∀ e, e < 1 →
      (initWorld 1 1 (fun _ => [])).entityArch e = rootMask 1 ∧
      ((initWorld 1 1 (fun _ => [])).arch (rootMask 1)).entities e = true) :=
  world_entity_archetype_invariant 1 1 (fun _ => []) (initWorld 1 1 (fun _ => []))
    Relation.ReflTransGen.refl

end Miski
